import Mathlib

/-
  Verification of the yojimbo `Connection` header (yojimbo_connection.h).

  The C++ code is shallowly embedded: 16-bit and 32-bit machine integers
  become `Nat` with explicit `% 65536` / `% 4294967296` where conversions
  happen; the float literal `0.1f` is embedded as the rational its source
  text denotes; pointers become `Option Nat` (`none` = NULL); a C `assert`
  is modelled as a separate proposition (it compiles away under NDEBUG and
  does not affect the serialized data).

  The generic bit-level stream codec (serialize_bool / serialize_bits /
  serialize_int / serialize_align) lives outside this header and is
  declared an external collaborator by the design document, so it is
  modelled from the spec: a write stream is the list of bits emitted so
  far (a fixed-width field of n bits contributes n bits, least significant
  first), a read stream is the list of bits not yet consumed, and
  alignment pads with zero bits to the next byte boundary.
-/

namespace Yojimbo

/-- Modelled from the spec: fixed-width binary encoding used by the
out-of-scope bit-stream writer; `bitsOfNat w v` is the low `w` bits of
`v`, least significant first. -/
def bitsOfNat : Nat → Nat → List Bool
  | 0, _ => []
  | w + 1, v => (v % 2 == 1) :: bitsOfNat w (v / 2)

/-- Modelled from the spec: the bit-stream reader primitive; reads `w`
bits from the front of the stream and returns the decoded value together
with the rest of the stream, failing if the stream is too short. -/
def rdBits : Nat → List Bool → Option (Nat × List Bool)
  | 0, s => some (0, s)
  | _ + 1, [] => none
  | w + 1, b :: s =>
    match rdBits w s with
    | none => none
    | some (v, rest) => some ((if b then 1 else 0) + 2 * v, rest)

/-- Modelled from the spec: number of bits the codec uses for an integer
constrained to `[lo, hi]` (the width needed to represent `hi - lo`). -/
def bitsRequired (lo hi : Nat) : Nat := Nat.log2 (hi - lo) + 1

/-- Write stream state of the out-of-scope bit packer: the bits emitted
so far, in emission order. -/
structure WriteStream where
  bits : List Bool

/-- Modelled from the spec: serialize_bool on a write stream (1 bit). -/
def wrBool (b : Bool) (s : WriteStream) : WriteStream :=
  ⟨s.bits ++ [b]⟩

/-- Modelled from the spec: serialize_bits on a write stream (`w` bits of
`v`). -/
def wrBits (w v : Nat) (s : WriteStream) : WriteStream :=
  ⟨s.bits ++ bitsOfNat w v⟩

/-- Modelled from the spec: serialize_int on a write stream; emits
`v - lo` in `bitsRequired lo hi` bits. -/
def wrInt (v lo hi : Nat) (s : WriteStream) : WriteStream :=
  ⟨s.bits ++ bitsOfNat (bitsRequired lo hi) (v - lo)⟩

/-- Modelled from the spec: serialize_align on a write stream; pads with
zero bits to the next byte boundary. -/
def wrAlign (s : WriteStream) : WriteStream :=
  ⟨s.bits ++ List.replicate ((8 - s.bits.length % 8) % 8) false⟩

/-- Modelled from the spec: serialize_int on a read stream; reads
`bitsRequired lo hi` bits, adds `lo` back, and fails if the decoded value
falls outside `[lo, hi]`. -/
def rdInt (lo hi : Nat) (s : List Bool) : Option (Nat × List Bool) :=
  match rdBits (bitsRequired lo hi) s with
  | none => none
  | some (v, rest) =>
    if lo ≤ v + lo ∧ v + lo ≤ hi then some (v + lo, rest) else none

/-- Modelled from the spec: serialize_align on a read stream at bit
position `pos`; consumes the padding bits up to the next byte boundary,
failing if the stream is too short. -/
def rdAlign (pos : Nat) (s : List Bool) : Option (List Bool) :=
  if (8 - pos % 8) % 8 ≤ s.length then some (s.drop ((8 - pos % 8) % 8)) else none

/-- `struct ConnectionPacket` payload fields: `sequence` and `ack` are
uint16_t, `ack_bits` is uint32_t (embedded as `Nat` with range side
conditions carried by the theorems). -/
structure ConnectionPacket where
  sequence : Nat
  ack : Nat
  ack_bits : Nat
  deriving DecidableEq, Repr

/-- The `ack_delta` computed on the write path of
`ConnectionPacket::Serialize` (lines 72-75): `sequence - ack` if
`ack < sequence`, else `(int)sequence + 65536 - ack`. -/
def writeAckDelta (sequence ack : Nat) : Nat :=
  if ack < sequence then sequence - ack else sequence + 65536 - ack

/-- The `ack_in_range` flag computed on the write path of
`ConnectionPacket::Serialize` (line 80): `ack_delta <= 64`. -/
def writeAckInRange (sequence ack : Nat) : Bool :=
  writeAckDelta sequence ack ≤ 64

/-- `ConnectionPacket::Serialize` instantiated with a write stream,
statement by statement: the perfect-ack bit, the optional 32-bit
`ack_bits`, the 16-bit `sequence`, the `ack_in_range` bit, then either
`serialize_int(ack_delta, 1, 64)` or the raw 16-bit `ack`, and a final
byte alignment. -/
def ConnectionPacket.SerializeWrite (p : ConnectionPacket) : WriteStream :=
  let perfect := p.ack_bits == 0xFFFFFFFF
  let s := wrBool perfect ⟨[]⟩
  let s := if !perfect then wrBits 32 p.ack_bits s else s
  let s := wrBits 16 p.sequence s
  let ack_delta := writeAckDelta p.sequence p.ack
  let ack_in_range := writeAckInRange p.sequence p.ack
  let s := wrBool ack_in_range s
  let s := if ack_in_range then wrInt ack_delta 1 64 s else wrBits 16 p.ack s
  wrAlign s

/-- `ConnectionPacket::Serialize` instantiated with a read stream: reads
the perfect bit; if set, `ack_bits` becomes 0xFFFFFFFF, otherwise 32 bits
are read; reads the 16-bit `sequence` and the `ack_in_range` bit; if set,
reads `ack_delta` via `serialize_int(1, 64)` and reconstructs
`ack = sequence - ack_delta` (the C int difference converted back to
uint16_t, i.e. mod 65536), otherwise reads the raw 16-bit `ack`; finally
consumes the byte-alignment padding. -/
def SerializeRead (bs : List Bool) : Option ConnectionPacket := do
  let (pb, s1) ← rdBits 1 bs
  let perfect := pb == 1
  let (ack_bits, s2, pos2) ←
    if perfect then
      some (0xFFFFFFFF, s1, 1)
    else do
      let (v, s2) ← rdBits 32 s1
      some (v, s2, 33)
  let (sequence, s3) ← rdBits 16 s2
  let (ib, s4) ← rdBits 1 s3
  let ack_in_range := ib == 1
  let (ack, s5, pos5) ←
    if ack_in_range then do
      let (ack_delta, s5) ← rdInt 1 64 s4
      some ((sequence + 65536 - ack_delta) % 65536, s5, pos2 + 23)
    else do
      let (v, s5) ← rdBits 16 s4
      some (v, s5, pos2 + 33)
  let _ ← rdAlign pos5 s5
  some ⟨sequence, ack, ack_bits⟩

/-- Forward distance `sequence - ack` modulo 65536, as the spec phrases
it (for 16-bit inputs this is the mathematical `(sequence - ack) mod
2^16`). -/
def fwdDist (sequence ack : Nat) : Nat :=
  (sequence + 65536 - ack) % 65536

/-- The wire layout exactly as the spec words it (§6): `perfect_ack`
(1 bit); `ack_bits` (32 bits) only if `perfect_ack` is false; `sequence`
(16 bits); `ack_in_range` (1 bit); then `ack_delta` (6 bits, carrying
the integer range 1..64 offset by its minimum) if `ack_in_range`, else
the raw 16-bit `ack`; then zero padding to the next byte boundary. -/
def specWireLayout (p : ConnectionPacket) : List Bool :=
  let perfect := p.ack_bits == 0xFFFFFFFF
  let ack_in_range := writeAckInRange p.sequence p.ack
  let body :=
    [perfect]
    ++ (if perfect then [] else bitsOfNat 32 p.ack_bits)
    ++ bitsOfNat 16 p.sequence
    ++ [ack_in_range]
    ++ (if ack_in_range then bitsOfNat 6 (writeAckDelta p.sequence p.ack - 1)
        else bitsOfNat 16 p.ack)
  body ++ List.replicate ((8 - body.length % 8) % 8) false

theorem bitsOfNat_length (w v : Nat) : (bitsOfNat w v).length = w := by
  induction w generalizing v with
  | zero => rfl
  | succ w ih => simp [bitsOfNat, ih]

theorem rdBits_bitsOfNat (w v : Nat) (rest : List Bool) :
    rdBits w (bitsOfNat w v ++ rest) = some (v % 2 ^ w, rest) := by
  induction w generalizing v with
  | zero => simp [bitsOfNat, rdBits, Nat.mod_one]
  | succ w ih =>
    have hbit : (if v % 2 == 1 then 1 else 0) = v % 2 := by
      rcases Nat.mod_two_eq_zero_or_one v with h | h <;> simp [h]
    simp only [bitsOfNat, List.cons_append, rdBits, List.append_eq, ih, hbit]
    rw [pow_succ', Nat.mod_mul]

theorem rdBits_one (b : Bool) (rest : List Bool) :
    rdBits 1 (b :: rest) = some (if b then 1 else 0, rest) := by
  simp [rdBits]

theorem bitsRequired_one_64 : bitsRequired 1 64 = 6 := by
  simp [bitsRequired, Nat.log2]

/-- The write path of `ConnectionPacket::Serialize` emits exactly the
wire layout the spec describes. -/
theorem SerializeWrite_bits (p : ConnectionPacket) :
    (p.SerializeWrite).bits = specWireLayout p := by
  unfold ConnectionPacket.SerializeWrite specWireLayout
  cases hp : (p.ack_bits == 0xFFFFFFFF) <;>
    cases ha : writeAckInRange p.sequence p.ack <;>
      simp [wrBool, wrBits, wrInt, wrAlign, bitsRequired_one_64,
        bitsOfNat_length, hp, ha]

theorem rdBits_bitsOfNat_nil (w v : Nat) :
    rdBits w (bitsOfNat w v) = some (v % 2 ^ w, []) := by
  simpa using rdBits_bitsOfNat w v []

/-- The write-path flag `ack_delta <= 64` agrees with the spec's
characterisation through the forward distance modulo 65536. -/
theorem writeAckInRange_iff (s a : Nat) (hs : s < 65536) (ha : a < 65536) :
    writeAckInRange s a = true ↔ 1 ≤ fwdDist s a ∧ fwdDist s a ≤ 64 := by
  unfold writeAckInRange writeAckDelta fwdDist
  by_cases h : a < s
  · simp only [if_pos h, decide_eq_true_eq]
    omega
  · simp only [if_neg h, decide_eq_true_eq]
    omega

/-- Encoding any in-range `ConnectionPacket` and decoding the resulting
bit stream reproduces all three payload fields, in every branch of the
serializer. -/
theorem Serialize_roundtrip (p : ConnectionPacket)
    (hs : p.sequence < 65536) (ha : p.ack < 65536) (hb : p.ack_bits < 4294967296) :
    SerializeRead (p.SerializeWrite).bits = some p := by
  obtain ⟨seq, ack, ab⟩ := p
  simp only at hs ha hb
  rw [SerializeWrite_bits]
  unfold specWireLayout
  have hdel : 1 ≤ writeAckDelta seq ack ∧
      (writeAckDelta seq ack ≤ 64 → (seq + 65536 - writeAckDelta seq ack) % 65536 = ack) := by
    unfold writeAckDelta
    by_cases h : ack < seq <;> simp [h] <;> omega
  cases hp : (ab == 0xFFFFFFFF) <;> cases hq : writeAckInRange seq ack
  · -- not perfect, not in range: raw 32-bit ack_bits and raw 16-bit ack
    simp only [hp, hq, Bool.false_eq_true, if_false, bitsOfNat_length]
    simp [SerializeRead, rdBits_one, rdBits_bitsOfNat, rdBits_bitsOfNat_nil, rdInt,
      bitsRequired_one_64, rdAlign, Option.bind, bitsOfNat_length]
    omega
  · -- not perfect, in range: raw ack_bits, 6-bit ack_delta
    have h64 : writeAckDelta seq ack ≤ 64 := by
      have := hq; unfold writeAckInRange at this; simpa using this
    have hack := hdel.2 h64
    have h1 := hdel.1
    simp only [hp, hq, Bool.false_eq_true, if_false, if_true, bitsOfNat_length]
    simp [SerializeRead, rdBits_one, rdBits_bitsOfNat, rdBits_bitsOfNat_nil, rdInt,
      bitsRequired_one_64, rdAlign, Option.bind, bitsOfNat_length]
    have hif : (writeAckDelta seq ack - 1) % 64 ≤ 63 := by omega
    simp [hif]
    omega
  · -- perfect ack_bits omitted, raw 16-bit ack
    have hab : ab = 4294967295 := by simpa using hp
    simp only [hp, hq, Bool.false_eq_true, if_false, if_true, bitsOfNat_length]
    simp [SerializeRead, rdBits_one, rdBits_bitsOfNat, rdBits_bitsOfNat_nil, rdInt,
      bitsRequired_one_64, rdAlign, Option.bind, bitsOfNat_length]
    omega
  · -- perfect ack_bits omitted, 6-bit ack_delta: the fully compact path
    have hab : ab = 4294967295 := by simpa using hp
    have h64 : writeAckDelta seq ack ≤ 64 := by
      have := hq; unfold writeAckInRange at this; simpa using this
    have hack := hdel.2 h64
    have h1 := hdel.1
    simp only [hp, hq, if_true, bitsOfNat_length]
    simp [SerializeRead, rdBits_one, rdBits_bitsOfNat, rdBits_bitsOfNat_nil, rdInt,
      bitsRequired_one_64, rdAlign, Option.bind, bitsOfNat_length]
    have hif : (writeAckDelta seq ack - 1) % 64 ≤ 63 := by omega
    simp [hif]
    omega

/-- Claim C1: for every (sequence, ack) pair whose forward distance
(sequence - ack, mod 65536) lies in [1, 64] and with ack_bits =
0xFFFFFFFF, running ConnectionPacket::Serialize in write mode and then
in read mode on the produced bit stream reproduces sequence, ack, and
ack_bits exactly (the compact perfect-ack, in-range path). -/
theorem C1_roundtrip_perfect_in_range (p : ConnectionPacket)
    (hs : p.sequence < 65536) (ha : p.ack < 65536)
    (_h1 : 1 ≤ fwdDist p.sequence p.ack) (_h64 : fwdDist p.sequence p.ack ≤ 64)
    (hb : p.ack_bits = 0xFFFFFFFF) :
    SerializeRead (p.SerializeWrite).bits = some p :=
  Serialize_roundtrip p hs ha (by omega)

theorem C1_roundtrip_perfect_in_range_witness :
    fwdDist 10 7 = 3 ∧
      SerializeRead ((ConnectionPacket.mk 10 7 0xFFFFFFFF).SerializeWrite).bits =
        some (ConnectionPacket.mk 10 7 0xFFFFFFFF) :=
  ⟨by decide,
   C1_roundtrip_perfect_in_range ⟨10, 7, 0xFFFFFFFF⟩
     (by decide) (by decide) (by decide) (by decide) rfl⟩

/-- Claim C2: ConnectionPacket::Serialize writes fields in exactly this
order and width: perfect_ack (1 bit), then ack_bits (32 bits) only if
perfect_ack is false (otherwise ack_bits is implied all-ones on read),
then sequence (16 bits), then ack_in_range (1 bit), then either
ack_delta (6 bits, integer range 1..64) if ack_in_range or the raw ack
(16 bits) otherwise, then padding to the next byte boundary. -/
theorem C2_wire_layout (p : ConnectionPacket) :
    (p.SerializeWrite).bits = specWireLayout p :=
  SerializeWrite_bits p

/-- Claim C3: on the write path of ConnectionPacket::Serialize, for
every 16-bit (sequence, ack) pair, the ack_in_range bit is set to true
if and only if the forward distance sequence - ack (mod 65536) lies in
[1, 64]; in particular it is false when ack == sequence (distance 0) and
when the distance exceeds 64. -/
theorem C3_ack_in_range_characterisation (s a : Nat)
    (hs : s < 65536) (ha : a < 65536) :
    (writeAckInRange s a = true ↔ 1 ≤ fwdDist s a ∧ fwdDist s a ≤ 64) ∧
      (a = s → writeAckInRange s a = false) ∧
      (64 < fwdDist s a → writeAckInRange s a = false) := by
  unfold writeAckInRange writeAckDelta fwdDist
  by_cases h : a < s <;>
    simp only [h, if_true, if_false, decide_eq_true_eq,
      decide_eq_false_iff_not] <;>
    refine ⟨by omega, fun hx => by omega, fun hx => by omega⟩

theorem C3_ack_in_range_characterisation_witness :
    (writeAckInRange 10 7 = true ↔ 1 ≤ fwdDist 10 7 ∧ fwdDist 10 7 ≤ 64) ∧
      (7 = 10 → writeAckInRange 10 7 = false) ∧
      (64 < fwdDist 10 7 → writeAckInRange 10 7 = false) :=
  C3_ack_in_range_characterisation 10 7 (by decide) (by decide)

/-- Claim C4: encoding then decoding a ConnectionPacket with forward
distance ack_delta = 1 reproduces all fields exactly, likewise for
ack_delta = 64, and a packet with forward distance 65 is encoded via the
raw-16-bit-ack path (ack_in_range false) and still round-trips
exactly. -/
theorem C4_roundtrip_boundaries (p : ConnectionPacket)
    (hs : p.sequence < 65536) (ha : p.ack < 65536) (hb : p.ack_bits < 4294967296) :
    (fwdDist p.sequence p.ack = 1 → SerializeRead (p.SerializeWrite).bits = some p) ∧
      (fwdDist p.sequence p.ack = 64 → SerializeRead (p.SerializeWrite).bits = some p) ∧
      (fwdDist p.sequence p.ack = 65 →
        writeAckInRange p.sequence p.ack = false ∧
          SerializeRead (p.SerializeWrite).bits = some p) := by
  refine ⟨fun _ => Serialize_roundtrip p hs ha hb,
          fun _ => Serialize_roundtrip p hs ha hb,
          fun h65 => ⟨?_, Serialize_roundtrip p hs ha hb⟩⟩
  have hiff := writeAckInRange_iff p.sequence p.ack hs ha
  cases hw : writeAckInRange p.sequence p.ack
  · rfl
  · exfalso
    have := hiff.mp hw
    omega

theorem C4_roundtrip_boundaries_witness :
    fwdDist 100 99 = 1 ∧
      SerializeRead ((ConnectionPacket.mk 100 99 5).SerializeWrite).bits =
        some (ConnectionPacket.mk 100 99 5) :=
  ⟨by decide,
   (C4_roundtrip_boundaries ⟨100, 99, 5⟩ (by decide) (by decide) (by decide)).1
     (by decide)⟩

/-- Claim C5: on the read path of ConnectionPacket::Serialize, the
decoder reconstructs omitted fields exactly as the spec states: if
perfect_ack was read as true then ack_bits is set to 0xFFFFFFFF, and if
ack_in_range was read as true then ack is computed as
sequence - ack_delta (mod 65536) from the 6-bit ack_delta in range
1..64. Stated on raw incoming streams of each relevant shape: perfect
with in-range delta, non-perfect with in-range delta, and perfect with a
raw 16-bit ack. -/
theorem C5_read_reconstruction (seq d ab a : Nat)
    (hseq : seq < 65536) (hd : d < 64) (hab : ab < 4294967296) (ha : a < 65536) :
    SerializeRead (true :: (bitsOfNat 16 seq ++ true :: bitsOfNat 6 d)) =
      some ⟨seq, (seq + 65536 - (d + 1)) % 65536, 0xFFFFFFFF⟩ ∧
      SerializeRead (false :: (bitsOfNat 32 ab ++ bitsOfNat 16 seq ++ true :: bitsOfNat 6 d)) =
        some ⟨seq, (seq + 65536 - (d + 1)) % 65536, ab⟩ ∧
      SerializeRead (true :: (bitsOfNat 16 seq ++ false :: (bitsOfNat 16 a ++ List.replicate 6 false))) =
        some ⟨seq, a, 0xFFFFFFFF⟩ := by
  have hd63 : d % 64 ≤ 63 := by omega
  refine ⟨?_, ?_, ?_⟩ <;>
    simp [SerializeRead, rdBits_one, rdBits_bitsOfNat, rdBits_bitsOfNat_nil, rdInt,
      bitsRequired_one_64, rdAlign, Option.bind, hd63, Nat.mod_eq_of_lt hd,
      Nat.mod_eq_of_lt hseq, Nat.mod_eq_of_lt ha, Nat.mod_eq_of_lt hab] <;>
    simp [show d ≤ 63 from by omega]

theorem C5_read_reconstruction_witness :
    SerializeRead (true :: (bitsOfNat 16 10 ++ true :: bitsOfNat 6 2)) =
      some ⟨10, (10 + 65536 - (2 + 1)) % 65536, 0xFFFFFFFF⟩ ∧
      SerializeRead (false :: (bitsOfNat 32 7 ++ bitsOfNat 16 10 ++ true :: bitsOfNat 6 2)) =
        some ⟨10, (10 + 65536 - (2 + 1)) % 65536, 7⟩ ∧
      SerializeRead (true :: (bitsOfNat 16 10 ++ false :: (bitsOfNat 16 3 ++ List.replicate 6 false))) =
        some ⟨10, 3, 0xFFFFFFFF⟩ :=
  C5_read_reconstruction 10 2 7 3 (by decide) (by decide) (by decide) (by decide)

/-- The first assertion on the write path of
`ConnectionPacket::Serialize` (line 77): `ack_delta > 0`. -/
def assertDeltaPos (sequence ack : Nat) : Prop :=
  0 < writeAckDelta sequence ack

/-- The second assertion on the write path of
`ConnectionPacket::Serialize` (line 78), evaluated in C integer
arithmetic: `sequence` (uint16_t) and `ack` (uint16_t) promote to int
and `ack_delta` is an int, so the comparison `sequence - ack_delta ==
ack` is a plain mathematical-integer equality with no wraparound. -/
def assertSeqMinusDeltaEqAck (sequence ack : Nat) : Prop :=
  (sequence : Int) - (writeAckDelta sequence ack : Int) = (ack : Int)

/-- Claim C8 (as stated) is false: at sequence = 0, ack = 0 the computed
ack_delta is 65536, the first assertion holds, but the second assertion
compares 0 - 65536 with 0 in C int arithmetic and fails. -/
theorem C8_assertions_counterexample :
    ¬ (assertDeltaPos 0 0 ∧ assertSeqMinusDeltaEqAck 0 0) := by
  intro h
  have h2 := h.2
  unfold assertSeqMinusDeltaEqAck writeAckDelta at h2
  norm_num at h2

/-- Claim C8 (amended): for every 16-bit (sequence, ack) pair the first
assertion ack_delta > 0 holds, while the second assertion
sequence - ack_delta == ack, evaluated in C integer arithmetic, holds if
and only if ack < sequence; in particular it fails when ack == sequence
(where ack_delta is 65536) and whenever ack > sequence. -/
theorem C8_amended_assertions (s a : Nat) (hs : s < 65536) (ha : a < 65536) :
    assertDeltaPos s a ∧ (assertSeqMinusDeltaEqAck s a ↔ a < s) := by
  unfold assertDeltaPos assertSeqMinusDeltaEqAck writeAckDelta
  by_cases h : a < s <;> simp [h] <;> omega

theorem C8_amended_assertions_witness :
    assertDeltaPos 5 3 ∧ (assertSeqMinusDeltaEqAck 5 3 ↔ 3 < 5) :=
  C8_amended_assertions 5 3 (by decide) (by decide)

/-- `struct MessageSendLargeBlockData` (fields in declaration order);
the two raw pointers are embedded as `Option Nat` (`none` = NULL). -/
structure MessageSendLargeBlockData where
  active : Bool
  numFragments : Int
  numAckedFragments : Int
  blockSize : Int
  blockId : Nat
  acked_fragment : Option Nat
  time_fragment_last_sent : Option Nat
  deriving DecidableEq, Repr

/-- `MessageSendLargeBlockData::Reset` (lines 257-264): clears the five
scalar fields and touches nothing else. -/
def MessageSendLargeBlockData.Reset (d : MessageSendLargeBlockData) :
    MessageSendLargeBlockData :=
  { d with
    active := false
    numFragments := 0
    numAckedFragments := 0
    blockId := 0
    blockSize := 0 }

/-- Claim C9: MessageSendLargeBlockData::Reset sets active to false and
numFragments, numAckedFragments, blockId, and blockSize to zero, and
leaves every other field unchanged — in particular the acked_fragment
and time_fragment_last_sent pointers are not modified or released by
Reset. -/
theorem C9_send_block_reset_frame (d : MessageSendLargeBlockData) :
    d.Reset.active = false ∧ d.Reset.numFragments = 0 ∧
      d.Reset.numAckedFragments = 0 ∧ d.Reset.blockId = 0 ∧
      d.Reset.blockSize = 0 ∧
      d.Reset.acked_fragment = d.acked_fragment ∧
      d.Reset.time_fragment_last_sent = d.time_fragment_last_sent := by
  simp [MessageSendLargeBlockData.Reset]

/-- `struct MessageReceiveLargeBlockData` (fields in declaration order);
`blockData` and `receivedFragment` are embedded as `Option Nat`
(`none` = NULL). -/
structure MessageReceiveLargeBlockData where
  active : Bool
  numFragments : Int
  numReceivedFragments : Int
  blockId : Nat
  blockSize : Nat
  blockData : Option Nat
  receivedFragment : Option Nat
  deriving DecidableEq, Repr

/-- `MessageReceiveLargeBlockData::Reset` (lines 284-296): if
`blockData` is non-null the function hits `assert(false)` — modelled as
failure (`none`) — instead of freeing the buffer (the source marks this
with a todo comment); otherwise it clears the scalar fields and nulls
`blockData`, leaving `receivedFragment` untouched. -/
def MessageReceiveLargeBlockData.Reset (d : MessageReceiveLargeBlockData) :
    Option MessageReceiveLargeBlockData :=
  if d.blockData ≠ none then
    none
  else
    some { d with
      active := false
      numFragments := 0
      numReceivedFragments := 0
      blockId := 0
      blockSize := 0
      blockData := none }

/-- Claim C6: MessageReceiveLargeBlockData::Reset raises an assertion
failure when blockData is non-null rather than freeing the buffer; under
the precondition blockData == NULL it completes normally and sets
active = false, numFragments = 0, numReceivedFragments = 0, blockId = 0,
blockSize = 0, and blockData = NULL. -/
theorem C6_receive_block_reset (d : MessageReceiveLargeBlockData) :
    (d.blockData ≠ none → d.Reset = none) ∧
      (d.blockData = none →
        d.Reset = some ⟨false, 0, 0, 0, 0, none, d.receivedFragment⟩) := by
  constructor
  · intro h
    simp [MessageReceiveLargeBlockData.Reset, h]
  · intro h
    simp [MessageReceiveLargeBlockData.Reset, h]

theorem C6_receive_block_reset_witness :
    MessageReceiveLargeBlockData.Reset ⟨true, 4, 2, 9, 100, some 3, some 5⟩ = none ∧
      MessageReceiveLargeBlockData.Reset ⟨true, 4, 2, 9, 100, none, some 5⟩ =
        some ⟨false, 0, 0, 0, 0, none, some 5⟩ :=
  ⟨(C6_receive_block_reset ⟨true, 4, 2, 9, 100, some 3, some 5⟩).1 (by decide),
   (C6_receive_block_reset ⟨true, 4, 2, 9, 100, none, some 5⟩).2 rfl⟩

/-- `const int CONNECTION_PACKET = 0` (line 35). -/
def CONNECTION_PACKET : Int := 0

/-- `struct ConnectionConfig` (fields in declaration order); the float
`messageResendRate` is embedded as the rational its source literal
denotes. -/
structure ConnectionConfig where
  packetType : Int
  maxPacketSize : Int
  slidingWindowSize : Int
  messageResendRate : ℚ
  messageSendQueueSize : Int
  messageReceiveQueueSize : Int
  messageSentPacketsSize : Int
  maxMessagesPerPacket : Int
  deriving DecidableEq, Repr

/-- The default constructor `ConnectionConfig::ConnectionConfig`
(lines 147-164), assignment by assignment. -/
def ConnectionConfig.default : ConnectionConfig :=
  { packetType := CONNECTION_PACKET
    maxPacketSize := 4 * 1024
    slidingWindowSize := 256
    messageResendRate := 1 / 10
    messageSendQueueSize := 1024
    messageReceiveQueueSize := 1024
    messageSentPacketsSize := 256
    maxMessagesPerPacket := 64 }

/-- Claim C10: a default-constructed ConnectionConfig has exactly these
values: packetType = CONNECTION_PACKET (0), maxPacketSize = 4096,
slidingWindowSize = 256, messageResendRate = 0.1f (embedded as 1/10),
messageSendQueueSize = 1024, messageReceiveQueueSize = 1024,
messageSentPacketsSize = 256, and maxMessagesPerPacket = 64. -/
theorem C10_default_config :
    ConnectionConfig.default.packetType = CONNECTION_PACKET ∧
      CONNECTION_PACKET = 0 ∧
      ConnectionConfig.default.maxPacketSize = 4096 ∧
      ConnectionConfig.default.slidingWindowSize = 256 ∧
      ConnectionConfig.default.messageResendRate = 1 / 10 ∧
      ConnectionConfig.default.messageSendQueueSize = 1024 ∧
      ConnectionConfig.default.messageReceiveQueueSize = 1024 ∧
      ConnectionConfig.default.messageSentPacketsSize = 256 ∧
      ConnectionConfig.default.maxMessagesPerPacket = 64 := by
  refine ⟨rfl, rfl, by norm_num [ConnectionConfig.default], rfl, rfl, rfl, rfl, rfl, rfl⟩

/-- Modelled from the spec: the receive-side state of `Connection` that
`ReceiveMessage` (declared at line 204, body not in this header) acts
on. Per §3 and §4.4 of the design document, arrivals are buffered keyed
by message identifier (`pending`) and `m_receiveMessageId` (line 357) is
the id of the next message to be received. Identifiers are taken as
unbounded naturals, matching the spec's monotonically assigned
identifiers. -/
structure ConnReceiveState where
  pending : List (Nat × Nat)
  receiveMessageId : Nat
  deriving DecidableEq, Repr

/-- Modelled from the spec: `Connection::ReceiveMessage` — returns the
message at the current expected identifier only if present, removes it
from the queue and advances the expected identifier; otherwise returns
nothing and leaves the state unchanged (§4.4). -/
def ReceiveMessage (s : ConnReceiveState) : Option (Nat × Nat) × ConnReceiveState :=
  match s.pending.find? (fun e => e.1 == s.receiveMessageId) with
  | none => (none, s)
  | some e =>
    (some e,
     ⟨s.pending.eraseP (fun x => x.1 == s.receiveMessageId), s.receiveMessageId + 1⟩)

/-- Observable connection operations for the receive-ordering property:
a message with a given identifier arrives (via `ReadPacket`), or the
application calls `ReceiveMessage`. -/
inductive ConnOp where
  | arrive (id msg : Nat)
  | receive
  deriving DecidableEq, Repr

/-- One operation applied to the receive state, returning the message
handed to the application, if any. -/
def stepOp : ConnOp → ConnReceiveState → Option (Nat × Nat) × ConnReceiveState
  | .arrive id msg, s => (none, ⟨(id, msg) :: s.pending, s.receiveMessageId⟩)
  | .receive, s => ReceiveMessage s

/-- A whole sequence of operations from a given state; collects the
messages returned by the `ReceiveMessage` calls, in order. -/
def runOps : List ConnOp → ConnReceiveState → List (Nat × Nat) × ConnReceiveState
  | [], s => ([], s)
  | op :: ops, s =>
    let r := stepOp op s
    let rest := runOps ops r.2
    (r.1.toList ++ rest.1, rest.2)

/-- The identifiers that arrive during a sequence of operations. -/
def arrivedIds (ops : List ConnOp) : List Nat :=
  ops.filterMap fun op =>
    match op with
    | .arrive id _ => some id
    | .receive => none

/-- The identifiers handed to the application are exactly the
consecutive run starting at the initial expected identifier. -/
theorem runOps_ids (ops : List ConnOp) (s : ConnReceiveState) :
    ((runOps ops s).1).map Prod.fst =
      List.range' s.receiveMessageId ((runOps ops s).1).length := by
  induction ops generalizing s with
  | nil => simp [runOps]
  | cons op ops ih =>
    cases op with
    | arrive id msg =>
      simpa [runOps, stepOp] using ih ⟨(id, msg) :: s.pending, s.receiveMessageId⟩
    | receive =>
      simp only [runOps, stepOp, ReceiveMessage]
      cases hf : s.pending.find? (fun e => e.1 == s.receiveMessageId) with
      | none => simpa using ih s
      | some e =>
        have he : e.1 = s.receiveMessageId := by
          have := List.find?_some hf
          simpa using this
        simp only [Option.toList, List.cons_append, List.nil_append, List.map_cons,
          List.length_cons]
        rw [List.range'_succ]
        rw [he]
        congr 1
        simpa using ih ⟨s.pending.eraseP (fun x => x.1 == s.receiveMessageId),
          s.receiveMessageId + 1⟩

/-- Every identifier handed to the application either was already
pending initially or arrived during the run. -/
theorem runOps_sources (ops : List ConnOp) (s : ConnReceiveState) (p : Nat × Nat)
    (hp : p ∈ (runOps ops s).1) :
    p.1 ∈ s.pending.map Prod.fst ∨ p.1 ∈ arrivedIds ops := by
  induction ops generalizing s with
  | nil => simp [runOps] at hp
  | cons op ops ih =>
    cases op with
    | arrive id msg =>
      simp only [runOps, stepOp, Option.toList, List.nil_append] at hp
      rcases ih _ hp with h | h
      · simp only [List.map_cons] at h
        rcases List.mem_cons.mp h with h | h
        · right; simp [arrivedIds, h]
        · left; exact h
      · right; simp [arrivedIds]; right; simpa [arrivedIds] using h
    | receive =>
      simp only [runOps, stepOp, ReceiveMessage] at hp
      cases hf : s.pending.find? (fun e => e.1 == s.receiveMessageId) with
      | none =>
        rw [hf] at hp
        simp only [Option.toList, List.nil_append] at hp
        rcases ih _ hp with h | h
        · left; exact h
        · right; simpa [arrivedIds] using h
      | some e =>
        rw [hf] at hp
        simp only [Option.toList, List.cons_append, List.nil_append] at hp
        rcases List.mem_cons.mp hp with h | h
        · left
          subst h
          exact List.mem_map_of_mem Prod.fst (List.mem_of_find?_eq_some hf)
        · rcases ih _ h with h2 | h2
          · left
            have hsub : ((s.pending.eraseP (fun x => x.1 == s.receiveMessageId)).map
                Prod.fst).Sublist (s.pending.map Prod.fst) :=
              List.Sublist.map Prod.fst (List.eraseP_sublist s.pending)
            exact hsub.mem h2
          · right; simpa [arrivedIds] using h2

/-- Claim C7: across every sequence of Connection operations,
ReceiveMessage never returns a message whose identifier is not the
current expected identifier: messages are delivered strictly in
ascending identifier order, and if identifier N has not been received
then no message with identifier greater than N is returned until N
arrives. -/
theorem C7_receive_strictly_ascending (ops : List ConnOp) (N : Nat) :
    (((runOps ops ⟨[], 0⟩).1).map Prod.fst).Chain' (· < ·) ∧
      (N ∉ arrivedIds ops → ∀ p ∈ (runOps ops ⟨[], 0⟩).1, p.1 ≤ N) := by
  have hids := runOps_ids ops ⟨[], 0⟩
  have h0 : (⟨[], 0⟩ : ConnReceiveState).receiveMessageId = 0 := rfl
  rw [h0] at hids
  constructor
  · rw [hids]
    exact (List.pairwise_lt_range' _ _).chain'
  · intro hN p hp
    by_contra hgt
    push_neg at hgt
    have hp1 : p.1 ∈ ((runOps ops ⟨[], 0⟩).1).map Prod.fst :=
      List.mem_map_of_mem Prod.fst hp
    rw [hids] at hp1
    have hlt : p.1 < 0 + ((runOps ops ⟨[], 0⟩).1).length :=
      (List.mem_range'_1.mp hp1).2
    have hNin : N ∈ List.range' (0 : Nat) ((runOps ops ⟨[], 0⟩).1).length :=
      List.mem_range'_1.mpr ⟨Nat.zero_le N, by omega⟩
    rw [← hids] at hNin
    rcases List.mem_map.mp hNin with ⟨q, hq, hq1⟩
    rcases runOps_sources ops ⟨[], 0⟩ q hq with h | h
    · simp at h
    · rw [hq1] at h
      exact hN h

theorem C7_receive_strictly_ascending_witness :
    (((runOps [ConnOp.arrive 1 10, ConnOp.arrive 0 20, ConnOp.receive,
        ConnOp.receive, ConnOp.receive] ⟨[], 0⟩).1).map Prod.fst).Chain' (· < ·) ∧
      (∀ p ∈ (runOps [ConnOp.arrive 1 10, ConnOp.arrive 0 20, ConnOp.receive,
        ConnOp.receive, ConnOp.receive] ⟨[], 0⟩).1, p.1 ≤ 5) :=
  ⟨(C7_receive_strictly_ascending [ConnOp.arrive 1 10, ConnOp.arrive 0 20,
      ConnOp.receive, ConnOp.receive, ConnOp.receive] 5).1,
   (C7_receive_strictly_ascending [ConnOp.arrive 1 10, ConnOp.arrive 0 20,
      ConnOp.receive, ConnOp.receive, ConnOp.receive] 5).2 (by decide)⟩

end Yojimbo
